import Mathlib

/-!
# Order saga: inventory reservation, payment ledger and coordinator

A shallow embedding of the three services under `src/cmd/` and theorems about them.

* HTTP bodies are JSON values (`Json`).
* Each SQL table is a key-value collection indexed by its key column.
* A database transaction works on a private copy of the table; `Commit` publishes the copy,
  the deferred `Rollback` discards it.
* Errors returned by the database driver (`Begin`, `QueryRow`, `Exec`, `Commit`) are decided by
  a fault oracle `Faults`, so every error branch of the handlers is present in the model.
  An arithmetic overflow of a column is such an `Exec` error.
-/

namespace Saga

/-! ## JSON values and HTTP responses -/

/-- A JSON document, as produced by `json.Marshal` and consumed by `ShouldBindJSON`. -/
inductive Json where
  | null
  | bool (b : Bool)
  | int (n : Int)
  | num (q : Rat)
  | str (s : String)
  | arr (xs : List Json)
  | obj (kvs : List (String × Json))

/-- The Go type `float64`, as far as the services depend on it: values are stored and passed on,
never computed with, and `json.Marshal` encodes a finite value and returns an error for NaN and
the infinities. -/
inductive Float64 where
  | finite (q : Rat)
  | nonFinite
  deriving DecidableEq

/-- Modelled from the spec: `models.Product` of `saga/internal/models` (the package is not part
of the sources); the fields are those the handlers read: `ID`, `Quantity` (Go `int`), `Price`. -/
structure Product where
  ID : String
  Quantity : Int
  Price : Float64
  deriving DecidableEq

/-- Modelled from the spec: `models.Order` of `saga/internal/models`; the fields are those that
`createOrder` and `startOrderSaga` read. -/
structure Order where
  ID : String
  UserID : String
  Amount : Float64
  Status : String
  Products : List Product
  deriving DecidableEq

/-- Modelled from the spec: `models.Payment` of `saga/internal/models`; the fields are those that
`processPayment` and `rollbackPayment` read. -/
structure Payment where
  ID : String
  OrderID : String
  Amount : Float64
  Status : String
  deriving DecidableEq

/-- The body passed to `c.JSON`: `gin.H{"error": ...}`, `gin.H{"message": ...}` or a payment. -/
inductive Body where
  | error (msg : String)
  | message (msg : String)
  | payment (p : Payment)
  deriving DecidableEq

/-- An HTTP response: status code and body. -/
structure Response where
  status : Nat
  body : Body
  deriving DecidableEq

/-- Outcomes of the database driver calls of one handler run: `true` means the call returns an
error. `query i` and `exec i` belong to the `i`-th statement of that kind in the run. -/
structure Faults where
  begin : Bool
  query : Nat → Bool
  exec : Nat → Bool
  commit : Bool

/-- The driver never fails. -/
def noFaults : Faults := ⟨false, fun _ => false, fun _ => false, false⟩

/-! ## Inventory service (`src/cmd/inventory-service/main.go`) -/

/-- Modelled from the spec: the `inventory` table (its schema is not part of the sources),
`product_id` (key, unique) to `quantity`. -/
abbrev Store := String → Option Int

/-- The statement `UPDATE inventory SET quantity = g(quantity) WHERE product_id = pid`. -/
def Store.update (db : Store) (pid : String) (g : Int → Int) : Store :=
  fun k => if k = pid then (db k).map g else db k

/-- The statement `SELECT quantity FROM inventory WHERE product_id = pid FOR UPDATE` followed by
`Scan`: an error when the driver fails or no row matches. -/
def Store.queryRow (db : Store) (fails : Bool) (pid : String) : Option Int :=
  if fails then none else db pid

/-- `c.ShouldBindJSON(&products)` for `products []models.Product`: the document must be an array
(`null` gives the nil slice); `decode` binds one element and depends on the field tags of
`models.Product`. -/
def ShouldBindJSON (decode : Json → Except String Product) :
    Json → Except String (List Product)
  | .arr xs => xs.mapM decode
  | .null => .ok []
  | _ => .error "json: cannot unmarshal into Go value of type []models.Product"

/-- The loop of `reserveInventory` (lines 67-86) inside the transaction `tx`; `i` counts the
iterations. -/
def reserveLoop (f : Faults) : Nat → List Product → Store → Except Response Store
  | _, [], tx => .ok tx
  | i, product :: rest, tx =>
    match tx.queryRow (f.query i) product.ID with
    | none => .error ⟨404, .error "Product not found"⟩
    | some currentQuantity =>
      if currentQuantity < product.Quantity then
        .error ⟨400, .error "Insufficient inventory"⟩
      else if f.exec i then
        .error ⟨500, .error "Failed to update inventory"⟩
      else
        reserveLoop f (i + 1) rest (tx.update product.ID (fun q => q - product.Quantity))

/-- The handler `reserveInventory`: the response and the committed table after the call. -/
def reserveInventory (decode : Json → Except String Product) (f : Faults) (body : Json)
    (db : Store) : Response × Store :=
  match ShouldBindJSON decode body with
  | .error e => (⟨400, .error e⟩, db)
  | .ok products =>
    if f.begin then (⟨500, .error "Failed to begin transaction"⟩, db)
    else
      match reserveLoop f 0 products db with
      | .error r => (r, db)
      | .ok tx =>
        if f.commit then (⟨500, .error "Failed to commit transaction"⟩, db)
        else (⟨200, .message "Inventory reserved successfully"⟩, tx)

/-- The loop of `rollbackReservation` (lines 110-117) inside the transaction `tx`. -/
def rollbackLoop (f : Faults) : Nat → List Product → Store → Except Response Store
  | _, [], tx => .ok tx
  | i, product :: rest, tx =>
    if f.exec i then
      .error ⟨500, .error "Failed to rollback inventory"⟩
    else
      rollbackLoop f (i + 1) rest (tx.update product.ID (fun q => q + product.Quantity))

/-- The handler `rollbackReservation`: the response and the committed table after the call. -/
def rollbackReservation (decode : Json → Except String Product) (f : Faults) (body : Json)
    (db : Store) : Response × Store :=
  match ShouldBindJSON decode body with
  | .error e => (⟨400, .error e⟩, db)
  | .ok products =>
    if f.begin then (⟨500, .error "Failed to begin transaction"⟩, db)
    else
      match rollbackLoop f 0 products db with
      | .error r => (r, db)
      | .ok tx =>
        if f.commit then (⟨500, .error "Failed to commit transaction"⟩, db)
        else (⟨200, .message "Inventory rollback successful"⟩, tx)

/-- The total quantity that the items of `ps` request for product `k`. -/
def requestedFor (k : String) (ps : List Product) : Int :=
  ((ps.filter (fun p => p.ID = k)).map (fun p => p.Quantity)).sum

/-- The item `p`, preceded in its request by the items `pre`, passes the checks of `Reserve` on
table `db`: its product exists and what is left after the earlier items covers the request. -/
def Satisfied (db : Store) (pre : List Product) (p : Product) : Prop :=
  ∃ q0, db p.ID = some q0 ∧ p.Quantity ≤ q0 - requestedFor p.ID pre

/-- Every quantity of the table is non-negative. -/
def NonNeg (db : Store) : Prop := ∀ k q, db k = some q → 0 ≤ q

/-- Every item of the request passes the checks of `Reserve` when the items are taken in order. -/
def AllSatisfied (db : Store) (ps : List Product) : Prop :=
  ∀ pre p post, ps = pre ++ p :: post → Satisfied db pre p

/-! ## Payment service (`src/cmd/payment-service/main.go`) -/

/-- Modelled from the spec: a row of the `payments` table without its key `id`. -/
structure PaymentRow where
  order_id : String
  amount : Float64
  status : String
  deriving DecidableEq

/-- Modelled from the spec: the `payments` table (its schema is not part of the sources),
`id` (generated key) to the other columns. -/
abbrev PaymentStore := String → Option PaymentRow

/-- The statement `INSERT INTO payments (id, order_id, amount, status) VALUES (...)`: an error when
the driver fails or, `id` being the key of the table, when a row with this `id` exists. -/
def PaymentStore.insert (db : PaymentStore) (fails : Bool) (p : Payment) : Option PaymentStore :=
  if fails || (db p.ID).isSome then none
  else some (fun k => if k = p.ID then some ⟨p.OrderID, p.Amount, p.Status⟩ else db k)

/-- The statement `UPDATE payments SET status = status WHERE id = id`. -/
def PaymentStore.updateStatus (db : PaymentStore) (status id : String) : PaymentStore :=
  fun k => if k = id then (db k).map (fun r => { r with status := status }) else db k

/-- The statement `UPDATE payments SET status = 'failed' WHERE order_id = orderID`. -/
def PaymentStore.failOrder (db : PaymentStore) (orderID : String) : PaymentStore :=
  fun k => (db k).map (fun r => if r.order_id = orderID then { r with status := "failed" } else r)

/-- The handler `processPayment`; `decode` is `c.ShouldBindJSON(&payment)` and depends on the
field tags of `models.Payment`, `newID` is the value of `uuid.New().String()`. -/
def processPayment (decode : Json → Except String Payment) (newID : String) (f : Faults)
    (body : Json) (db : PaymentStore) : Response × PaymentStore :=
  match decode body with
  | .error e => (⟨400, .error e⟩, db)
  | .ok bound =>
    let payment : Payment := { bound with ID := newID, Status := "processing" }
    if f.begin then (⟨500, .error "Failed to begin transaction"⟩, db)
    else
      match db.insert (f.exec 0) payment with
      | none => (⟨500, .error "Failed to create payment"⟩, db)
      | some tx =>
        let payment : Payment := { payment with Status := "completed" }
        if f.exec 1 then (⟨500, .error "Failed to update payment status"⟩, db)
        else
          let tx := tx.updateStatus payment.Status payment.ID
          if f.commit then (⟨500, .error "Failed to commit transaction"⟩, db)
          else (⟨200, .payment payment⟩, tx)

/-- The handler `rollbackPayment`. -/
def rollbackPayment (decode : Json → Except String Payment) (f : Faults) (body : Json)
    (db : PaymentStore) : Response × PaymentStore :=
  match decode body with
  | .error e => (⟨400, .error e⟩, db)
  | .ok payment =>
    if f.exec 0 then (⟨500, .error "Failed to rollback payment"⟩, db)
    else (⟨200, .message "Payment rollback successful"⟩, db.failOrder payment.OrderID)

/-- One operation of the payment service: `Process` or `Compensate`, with its HTTP body and the
outcomes of its driver calls. -/
inductive PaymentOp where
  | process (newID : String) (f : Faults) (body : Json)
  | rollback (f : Faults) (body : Json)

/-- The committed `payments` table after one operation. -/
def PaymentOp.apply (decode : Json → Except String Payment) (op : PaymentOp)
    (db : PaymentStore) : PaymentStore :=
  match op with
  | .process newID f body => (processPayment decode newID f body db).2
  | .rollback f body => (rollbackPayment decode f body db).2

/-- The committed `payments` table after a sequence of operations. -/
def runPayments (decode : Json → Except String Payment) (ops : List PaymentOp)
    (db : PaymentStore) : PaymentStore :=
  ops.foldl (fun acc op => op.apply decode acc) db

/-! ## Order service (`src/cmd/order-service/main.go`) -/

/-- The struct `ProductReserve`. -/
structure ProductReserve where
  ProductID : String
  Quantity : Int
  deriving DecidableEq

/-- The struct `InventoryRequest`. -/
structure InventoryRequest where
  OrderID : String
  Products : List ProductReserve
  deriving DecidableEq

/-- The struct `PaymentRequest`. -/
structure PaymentRequest where
  OrderID : String
  Amount : Float64
  UserID : String
  deriving DecidableEq

/-- `json.Marshal` of a `ProductReserve`, keys from its field tags. -/
def ProductReserve.toJson (p : ProductReserve) : Json :=
  .obj [("product_id", .str p.ProductID), ("quantity", .int p.Quantity)]

/-- `json.Marshal` of an `InventoryRequest`: an object, keys from its field tags. -/
def jsonMarshalInventoryRequest (r : InventoryRequest) : Except String Json :=
  .ok (.obj [("order_id", .str r.OrderID), ("products", .arr (r.Products.map ProductReserve.toJson))])

/-- `json.Marshal` of a `PaymentRequest`: an error for an amount that is not finite. -/
def jsonMarshalPaymentRequest (r : PaymentRequest) : Except String Json :=
  match r.Amount with
  | .finite q => .ok (.obj [("order_id", .str r.OrderID), ("amount", .num q), ("user_id", .str r.UserID)])
  | .nonFinite => .error "json: unsupported value"

/-- Modelled from the spec: a row of the `orders` table without its key `id`. -/
structure OrderRow where
  user_id : String
  amount : Float64
  status : String
  deriving DecidableEq

/-- Modelled from the spec: the `orders` table (its schema is not part of the sources),
`id` to the other columns. -/
abbrev OrderStore := String → Option OrderRow

/-- What one run of the coordinator does to the outside: an `http.Post` with the status code of
its response (`none` when the call returns an error), or the statement of `updateOrderStatus`. -/
inductive Event where
  | post (url : String) (body : Json) (reply : Option Nat)
  | updateOrderStatus (orderID status : String)

/-- The surroundings of the coordinator: `post` is `http.Post` against the services in state `W`,
`execFails` says whether `db.Exec` in `updateOrderStatus` returns an error. -/
structure Env (W : Type) where
  post : String → Json → W → Option Response × W
  execFails : Bool

/-- The state a coordinator run acts on: the services, the `orders` table and the events so
far. -/
structure SagaState (W : Type) where
  world : W
  orders : OrderStore
  trace : List Event

def reserveURL : String := "http://localhost:8081/api/inventory/reserve"

def rollbackURL : String := "http://localhost:8081/api/inventory/rollback"

def paymentURL : String := "http://localhost:8082/api/payments/process"

/-- The call `http.Post(url, "application/json", body)`. -/
def httpPost {W : Type} (env : Env W) (url : String) (body : Json) (st : SagaState W) :
    Option Response × SagaState W :=
  let r := env.post url body st.world
  (r.1, { st with world := r.2, trace := st.trace ++ [.post url body (r.1.map (fun x => x.status))] })

/-- The test `err != nil || resp.StatusCode != http.StatusOK`. -/
def callFailed : Option Response → Bool
  | none => true
  | some resp => resp.status != 200

/-- The function `updateOrderStatus`: an error of `db.Exec` is only logged. -/
def updateOrderStatus {W : Type} (env : Env W) (orderID status : String) (st : SagaState W) :
    SagaState W :=
  { st with
    orders :=
      if env.execFails then st.orders
      else fun k => if k = orderID then (st.orders k).map (fun r => { r with status := status })
        else st.orders k
    trace := st.trace ++ [.updateOrderStatus orderID status] }

/-- The rollback of the inventory in `startOrderSaga` (lines 159-166 and 176-183): the error of
`json.Marshal` is dropped and the response of the call is not read. -/
def rollbackInventory {W : Type} (env : Env W) (order : Order) (inventoryReq : InventoryRequest)
    (st : SagaState W) : SagaState W :=
  let rollbackReq : InventoryRequest := ⟨order.ID, inventoryReq.Products⟩
  let rollbackBody :=
    match jsonMarshalInventoryRequest rollbackReq with
    | .ok b => b
    | .error _ => .null
  (httpPost env rollbackURL rollbackBody st).2

/-- The function `startOrderSaga`. -/
def startOrderSaga {W : Type} (env : Env W) (order : Order) (st : SagaState W) : SagaState W :=
  let inventoryReq : InventoryRequest :=
    ⟨order.ID, order.Products.map (fun product => ⟨product.ID, product.Quantity⟩)⟩
  match jsonMarshalInventoryRequest inventoryReq with
  | .error _ => updateOrderStatus env order.ID "failed" st
  | .ok inventoryBody =>
    let r1 := httpPost env reserveURL inventoryBody st
    if callFailed r1.1 then updateOrderStatus env order.ID "failed" r1.2
    else
      let paymentReq : PaymentRequest := ⟨order.ID, order.Amount, order.UserID⟩
      match jsonMarshalPaymentRequest paymentReq with
      | .error _ =>
        updateOrderStatus env order.ID "failed" (rollbackInventory env order inventoryReq r1.2)
      | .ok paymentBody =>
        let r2 := httpPost env paymentURL paymentBody r1.2
        if callFailed r2.1 then
          updateOrderStatus env order.ID "failed" (rollbackInventory env order inventoryReq r2.2)
        else updateOrderStatus env order.ID "completed" r2.2

/-! ## The three services together -/

/-- The inventory and the payment service as reached by the coordinator. -/
structure Services where
  inventory : Store
  payments : PaymentStore

/-- The routes registered by the `main` functions of the inventory and the payment service on
their default ports, with a driver that never fails; a call to any other address returns an
error. -/
def deployedPost (decodeProduct : Json → Except String Product)
    (decodePayment : Json → Except String Payment) (newID : String) (url : String) (body : Json)
    (w : Services) : Option Response × Services :=
  if url = reserveURL then
    let r := reserveInventory decodeProduct noFaults body w.inventory
    (some r.1, { w with inventory := r.2 })
  else if url = rollbackURL then
    let r := rollbackReservation decodeProduct noFaults body w.inventory
    (some r.1, { w with inventory := r.2 })
  else if url = paymentURL then
    let r := processPayment decodePayment newID noFaults body w.payments
    (some r.1, { w with payments := r.2 })
  else (none, w)

/-- The status writes among the events, in order. -/
def statusWrites : List Event → List (String × String)
  | [] => []
  | .updateOrderStatus orderID status :: rest => (orderID, status) :: statusWrites rest
  | .post _ _ _ :: rest => statusWrites rest

/-- The service calls among the events, in order: address and body. -/
def serviceCalls : List Event → List (String × Json)
  | [] => []
  | .post url body _ :: rest => (url, body) :: serviceCalls rest
  | .updateOrderStatus _ _ :: rest => serviceCalls rest

/-- The body that `startOrderSaga` sends to Reserve and to Release for `order`. -/
def inventoryBody (order : Order) : Json :=
  .obj [("order_id", .str order.ID),
    ("products", .arr (order.Products.map
      (fun product => ProductReserve.toJson ⟨product.ID, product.Quantity⟩)))]

/-! ## Runs and sample inputs -/

/-- The committed `inventory` table after a sequence of Reserve requests executed one after
another, each with the outcomes of its driver calls. -/
def runReserves (decode : Json → Except String Product) (reqs : List (Faults × Json))
    (db : Store) : Store :=
  reqs.foldl (fun acc r => (reserveInventory decode r.1 r.2 acc).2) db

/-- A binding of one array element to a product: the keys `id` and `quantity`. -/
def decodeItem : Json → Except String Product
  | .obj [("id", .str i), ("quantity", .int q)] => .ok ⟨i, q, .finite 0⟩
  | _ => .error "json: cannot unmarshal into Go value of type models.Product"

/-- The JSON object that `decodeItem` binds. -/
def itemJson (id : String) (q : Int) : Json :=
  .obj [("id", .str id), ("quantity", .int q)]

/-- An `inventory` table with a single row. -/
def singleRow (pid : String) (q : Int) : Store :=
  fun k => if k = pid then some q else none

/-- The order of the end-to-end example: user `u1`, amount 50, one line item `p1` with quantity
3 and price 10; `createOrder` has given it an identifier and the status `pending`. -/
def exampleOrder : Order :=
  ⟨"o1", "u1", .finite 50, "pending", [⟨"p1", 3, .finite 10⟩]⟩

/-- The `orders` table once `createOrder` has committed the row of `order`. -/
def ordersWith (order : Order) : OrderStore :=
  fun k => if k = order.ID then some ⟨order.UserID, order.Amount, order.Status⟩ else none

/-- An empty `payments` table. -/
def noPayments : PaymentStore := fun _ => none

/-- A binding of a body to a payment: the keys sent by the coordinator to Process, or the key
`order_id` alone. -/
def decodePaymentBody : Json → Except String Payment
  | .obj [("order_id", .str o), ("amount", .num a), ("user_id", .str _)] =>
    .ok ⟨"", o, .finite a, ""⟩
  | .obj [("order_id", .str o)] => .ok ⟨"", o, .finite 0, ""⟩
  | _ => .error "json: cannot unmarshal into Go value of type models.Payment"

/-- Services that answer 200 to every call and have no state. -/
def everyCallOK : Env Unit :=
  ⟨fun _ _ w => (some ⟨200, .message "ok"⟩, w), false⟩

/-- An order whose amount is not finite, with one line item `p1` of quantity 2. -/
def nonFiniteOrder : Order :=
  ⟨"o1", "u1", .nonFinite, "pending", [⟨"p1", 2, .finite 10⟩]⟩

/-! ## Theorems -/

theorem requestedFor_nil (k : String) : requestedFor k [] = 0 := rfl

theorem requestedFor_cons (k : String) (p : Product) (ps : List Product) :
    requestedFor k (p :: ps) = (if p.ID = k then p.Quantity else 0) + requestedFor k ps := by
  unfold requestedFor
  by_cases h : p.ID = k <;> simp [List.filter_cons, h]

theorem requestedFor_of_not_mem (k : String) (ps : List Product)
    (h : ∀ p ∈ ps, p.ID ≠ k) : requestedFor k ps = 0 := by
  induction ps with
  | nil => rfl
  | cons a rest ih =>
    rw [requestedFor_cons, ih (fun p hp => h p (List.mem_cons_of_mem _ hp))]
    simp [h a (List.mem_cons_self _ _)]

/-- One successful iteration of the reserve loop, read off the code: the row was read, it
covers the request, and the loop goes on with the decremented table. -/
theorem reserveLoop_cons_ok {f : Faults} {i : Nat} {a : Product} {rest : List Product}
    {tx tx1 : Store} (h : reserveLoop f i (a :: rest) tx = .ok tx1) :
    ∃ cur, tx.queryRow (f.query i) a.ID = some cur ∧ tx a.ID = some cur ∧ a.Quantity ≤ cur ∧
      ∀ rest1, reserveLoop f i (a :: rest1) tx =
        reserveLoop f (i + 1) rest1 (tx.update a.ID (fun q => q - a.Quantity)) := by
  unfold reserveLoop at h
  cases hq : tx.queryRow (f.query i) a.ID with
  | none => simp [hq] at h
  | some cur =>
    simp only [hq] at h
    by_cases hlt : cur < a.Quantity
    · simp [hlt] at h
    · by_cases hex : f.exec i = true
      · simp [hlt, hex] at h
      · refine ⟨cur, rfl, ?_, not_lt.mp hlt, ?_⟩
        · unfold Store.queryRow at hq
          by_cases hf : f.query i = true
          · simp [hf] at hq
          · simpa [hf] using hq
        · intro rest1
          conv_lhs => unfold reserveLoop
          simp [hq, hlt, hex]

/-- After a successful reserve loop every row holds its old quantity minus what was requested. -/
theorem reserveLoop_ok_state {f : Faults} {ps : List Product} :
    ∀ {i : Nat} {tx tx1 : Store}, reserveLoop f i ps tx = .ok tx1 →
      ∀ k, tx1 k = (tx k).map (fun q => q - requestedFor k ps) := by
  induction ps with
  | nil =>
    intro i tx tx1 h k
    unfold reserveLoop at h
    cases h
    simp [requestedFor_nil]
  | cons a rest ih =>
    intro i tx tx1 h k
    obtain ⟨cur, _, _, _, hstep⟩ := reserveLoop_cons_ok h
    have hrest := (hstep rest).symm.trans h
    rw [ih hrest k, requestedFor_cons]
    unfold Store.update
    by_cases hk : k = a.ID
    · subst hk
      cases tx a.ID <;> simp [sub_sub]
    · have hk2 : ¬ a.ID = k := fun e => hk e.symm
      simp [hk, hk2]

/-- A successful reserve loop found every item satisfied. -/
theorem reserveLoop_ok_items {f : Faults} {ps : List Product} :
    ∀ {i : Nat} {tx tx1 : Store}, reserveLoop f i ps tx = .ok tx1 → AllSatisfied tx ps := by
  induction ps with
  | nil =>
    intro i tx tx1 _ pre p post hsplit
    simp at hsplit
  | cons a rest ih =>
    intro i tx tx1 h pre p post hsplit
    obtain ⟨cur, _, hcur, hle, hstep⟩ := reserveLoop_cons_ok h
    have hrest := (hstep rest).symm.trans h
    cases pre with
    | nil =>
      simp only [List.nil_append, List.cons.injEq] at hsplit
      obtain ⟨rfl, _⟩ := hsplit
      exact ⟨cur, hcur, by simpa [requestedFor_nil] using hle⟩
    | cons b pre1 =>
      simp only [List.cons_append, List.cons.injEq] at hsplit
      obtain ⟨rfl, hsplit1⟩ := hsplit
      obtain ⟨q1, hq1, hle1⟩ := ih hrest pre1 p post hsplit1
      unfold Store.update at hq1
      by_cases hk : p.ID = a.ID
      · simp only [hk, if_true] at hq1
        rw [hk] at hle1
        cases htx : tx a.ID with
        | none => simp [htx] at hq1
        | some q0 =>
          simp only [htx, Option.map_some', Option.some.injEq] at hq1
          refine ⟨q0, by rw [hk]; exact htx, ?_⟩
          rw [requestedFor_cons, hk]
          simp only [if_true]
          omega
      · simp only [hk, if_false] at hq1
        refine ⟨q1, hq1, ?_⟩
        rw [requestedFor_cons]
        have hk2 : ¬ a.ID = p.ID := fun e => hk e.symm
        simpa [hk2] using hle1


/-- The reserve loop only fails with a status other than 200. -/
theorem reserveLoop_error_status {f : Faults} {ps : List Product} :
    ∀ {i : Nat} {tx : Store} {r : Response}, reserveLoop f i ps tx = .error r → r.status ≠ 200 := by
  induction ps with
  | nil =>
    intro i tx r h
    unfold reserveLoop at h
    cases h
  | cons a rest ih =>
    intro i tx r h
    unfold reserveLoop at h
    cases hq : tx.queryRow (f.query i) a.ID with
    | none =>
      simp only [hq] at h
      cases h
      decide
    | some cur =>
      simp only [hq] at h
      by_cases hlt : cur < a.Quantity
      · simp only [hlt, if_true] at h
        cases h
        decide
      · by_cases hex : f.exec i = true
        · simp only [hlt, hex, if_true, if_false] at h
          cases h
          decide
        · simp only [hlt, hex, if_false] at h
          exact ih h

/-- The reserve loop on a request cut in two. -/
theorem reserveLoop_append {f : Faults} {ps : List Product} (qs : List Product) :
    ∀ {i : Nat} {tx tx1 : Store}, reserveLoop f i ps tx = .ok tx1 →
      reserveLoop f i (ps ++ qs) tx = reserveLoop f (i + ps.length) qs tx1 := by
  induction ps with
  | nil =>
    intro i tx tx1 h
    unfold reserveLoop at h
    cases h
    simp
  | cons a rest ih =>
    intro i tx tx1 h
    obtain ⟨cur, _, _, _, hstep⟩ := reserveLoop_cons_ok h
    have hrest := (hstep rest).symm.trans h
    rw [List.cons_append, hstep (rest ++ qs), ih hrest]
    congr 1
    simp only [List.length_cons]
    omega

/-- When the first item is satisfied, the later items are satisfied on the table in which the
first item has been decremented. -/
theorem AllSatisfied.tail {tx : Store} {a : Product} {rest : List Product}
    (h : AllSatisfied tx (a :: rest)) :
    AllSatisfied (tx.update a.ID (fun q => q - a.Quantity)) rest := by
  intro pre p post hsplit
  obtain ⟨q0, hq0, hle⟩ := h (a :: pre) p post (by rw [hsplit]; rfl)
  rw [requestedFor_cons] at hle
  unfold Satisfied Store.update
  by_cases hk : p.ID = a.ID
  · refine ⟨q0 - a.Quantity, by rw [if_pos hk, hq0]; rfl, ?_⟩
    have hk2 : a.ID = p.ID := hk.symm
    simp only [hk2, if_true] at hle
    omega
  · refine ⟨q0, by simp [hk, hq0], ?_⟩
    have hk2 : ¬ a.ID = p.ID := fun e => hk e.symm
    simpa [hk2] using hle

/-- Without driver errors the reserve loop succeeds on a request whose items are all satisfied. -/
theorem reserveLoop_noFaults_ok {ps : List Product} :
    ∀ {i : Nat} {tx : Store}, AllSatisfied tx ps → ∃ tx1, reserveLoop noFaults i ps tx = .ok tx1 := by
  induction ps with
  | nil =>
    intro i tx _
    exact ⟨tx, by unfold reserveLoop; rfl⟩
  | cons a rest ih =>
    intro i tx h
    obtain ⟨q0, hq0, hle⟩ := h [] a rest rfl
    obtain ⟨tx1, htx1⟩ := ih (i := i + 1) (AllSatisfied.tail h)
    refine ⟨tx1, ?_⟩
    rw [requestedFor_nil] at hle
    have hlt : ¬ q0 < a.Quantity := by omega
    unfold reserveLoop
    simp only [Store.queryRow, noFaults, hq0, hlt, if_false, Bool.false_eq_true]
    exact htx1

/-- Without driver errors, on a request whose products all exist, the reserve loop succeeds or
reports insufficient inventory. -/
theorem reserveLoop_noFaults_present {ps : List Product} :
    ∀ {i : Nat} {tx : Store}, (∀ p ∈ ps, tx p.ID ≠ none) →
      (∃ tx1, reserveLoop noFaults i ps tx = .ok tx1) ∨
        reserveLoop noFaults i ps tx = .error ⟨400, .error "Insufficient inventory"⟩ := by
  induction ps with
  | nil =>
    intro i tx _
    exact Or.inl ⟨tx, by unfold reserveLoop; rfl⟩
  | cons a rest ih =>
    intro i tx h
    have ha := h a (List.mem_cons_self _ _)
    cases hq : tx a.ID with
    | none => exact absurd hq ha
    | some q0 =>
      by_cases hlt : q0 < a.Quantity
      · right
        unfold reserveLoop
        simp [Store.queryRow, noFaults, hq, hlt]
      · have hrest : ∀ p ∈ rest, (tx.update a.ID (fun q => q - a.Quantity)) p.ID ≠ none := by
          intro p hp
          have hp2 := h p (List.mem_cons_of_mem _ hp)
          unfold Store.update
          by_cases hk : p.ID = a.ID
          · simp [hk, hq]
          · simpa [hk] using hp2
        have hstep : reserveLoop noFaults i (a :: rest) tx =
            reserveLoop noFaults (i + 1) rest (tx.update a.ID (fun q => q - a.Quantity)) := by
          conv_lhs => unfold reserveLoop
          simp only [Store.queryRow, noFaults, hq, hlt, if_false, Bool.false_eq_true]
        rw [hstep]
        exact ih hrest

/-- A response with status 200 comes from a request that was bound and whose loop and commit
succeeded. -/
theorem reserveInventory_ok {decode : Json → Except String Product} {f : Faults} {body : Json}
    {db : Store} (h : (reserveInventory decode f body db).1.status = 200) :
    ∃ products tx, ShouldBindJSON decode body = .ok products ∧
      reserveLoop f 0 products db = .ok tx ∧ (reserveInventory decode f body db).2 = tx := by
  unfold reserveInventory at h ⊢
  cases hb : ShouldBindJSON decode body with
  | error e => simp [hb] at h
  | ok products =>
    simp only [hb] at h ⊢
    by_cases hbeg : f.begin = true
    · simp [hbeg] at h
    · simp only [hbeg, if_false] at h ⊢
      cases hl : reserveLoop f 0 products db with
      | error r =>
        simp only [hl] at h
        exact absurd h (reserveLoop_error_status hl)
      | ok tx =>
        simp only [hl] at h ⊢
        by_cases hc : f.commit = true
        · simp [hc] at h
        · exact ⟨products, tx, rfl, hl, by simp [hc]⟩

/-- A response with another status than 200 leaves the committed table as it was. -/
theorem reserveInventory_failed_store (decode : Json → Except String Product) (f : Faults)
    (body : Json) (db : Store) (h : (reserveInventory decode f body db).1.status ≠ 200) :
    (reserveInventory decode f body db).2 = db := by
  unfold reserveInventory at h ⊢
  cases hb : ShouldBindJSON decode body with
  | error e => rfl
  | ok products =>
    simp only [hb] at h ⊢
    by_cases hbeg : f.begin = true
    · simp [hbeg]
    · simp only [hbeg, if_false] at h ⊢
      cases hl : reserveLoop f 0 products db with
      | error r => rfl
      | ok tx =>
        simp only [hl] at h ⊢
        by_cases hc : f.commit = true
        · simp [hc]
        · simp [hc] at h


/-- A successful reserve loop read, for every item, a quantity that covers the request, in the
transaction as the items before it left it. -/
theorem reserveLoop_reads {f : Faults} {pre : List Product} (p : Product) (post : List Product) :
    ∀ {i : Nat} {tx tx1 : Store}, reserveLoop f i (pre ++ p :: post) tx = .ok tx1 →
      ∃ tx0 cur, reserveLoop f i pre tx = .ok tx0 ∧
        tx0.queryRow (f.query (i + pre.length)) p.ID = some cur ∧ p.Quantity ≤ cur := by
  induction pre with
  | nil =>
    intro i tx tx1 h
    have h2 : reserveLoop f i (p :: post) tx = .ok tx1 := h
    obtain ⟨cur, hq, _, hle, _⟩ := reserveLoop_cons_ok h2
    exact ⟨tx, cur, by unfold reserveLoop; rfl, by simpa using hq, hle⟩
  | cons a pre1 ih =>
    intro i tx tx1 h
    have h2 : reserveLoop f i (a :: (pre1 ++ p :: post)) tx = .ok tx1 := h
    obtain ⟨_, _, _, _, hstep⟩ := reserveLoop_cons_ok h2
    have hrest := (hstep (pre1 ++ p :: post)).symm.trans h
    obtain ⟨tx0, cur, h0, hq, hle⟩ := ih hrest
    refine ⟨tx0, cur, (hstep pre1).trans h0, ?_, hle⟩
    have hidx : i + (a :: pre1).length = i + 1 + pre1.length := by
      simp only [List.length_cons]
      omega
    rw [hidx]
    exact hq

/-- A successful reserve loop keeps every quantity non-negative. -/
theorem reserveLoop_nonNeg {f : Faults} {ps : List Product} :
    ∀ {i : Nat} {tx tx1 : Store}, NonNeg tx → reserveLoop f i ps tx = .ok tx1 → NonNeg tx1 := by
  induction ps with
  | nil =>
    intro i tx tx1 hnn h
    unfold reserveLoop at h
    cases h
    exact hnn
  | cons a rest ih =>
    intro i tx tx1 hnn h
    obtain ⟨cur, _, hcur, hle, hstep⟩ := reserveLoop_cons_ok h
    have hrest := (hstep rest).symm.trans h
    refine ih ?_ hrest
    intro k q hk
    unfold Store.update at hk
    by_cases hka : k = a.ID
    · subst hka
      simp only [if_true, hcur, Option.map_some', Option.some.injEq] at hk
      omega
    · simp only [hka, if_false] at hk
      exact hnn k q hk

/-- One Reserve request keeps every quantity non-negative. -/
theorem reserveInventory_nonNeg (decode : Json → Except String Product) (f : Faults)
    (body : Json) {db : Store} (hnn : NonNeg db) :
    NonNeg (reserveInventory decode f body db).2 := by
  by_cases h : (reserveInventory decode f body db).1.status = 200
  · obtain ⟨products, tx, _, hloop, hstore⟩ := reserveInventory_ok h
    rw [hstore]
    exact reserveLoop_nonNeg hnn hloop
  · rw [reserveInventory_failed_store decode f body db h]
    exact hnn

/-- A sequence of Reserve requests keeps every quantity non-negative. -/
theorem runReserves_nonNeg (decode : Json → Except String Product)
    (reqs : List (Faults × Json)) : ∀ {db : Store}, NonNeg db → NonNeg (runReserves decode reqs db) := by
  induction reqs with
  | nil =>
    intro db hnn
    exact hnn
  | cons r rest ih =>
    intro db hnn
    unfold runReserves
    rw [List.foldl_cons]
    exact ih (reserveInventory_nonNeg decode r.1 r.2 hnn)

/-- Without driver errors the handler answers what the loop answers. -/
theorem reserveInventory_noFaults {decode : Json → Except String Product} {body : Json}
    {products : List Product} (db : Store) (hbind : ShouldBindJSON decode body = .ok products) :
    reserveInventory decode noFaults body db =
      match reserveLoop noFaults 0 products db with
      | .error r => (r, db)
      | .ok tx => (⟨200, .message "Inventory reserved successfully"⟩, tx) := by
  unfold reserveInventory
  simp only [hbind]
  cases reserveLoop noFaults 0 products db <;> simp [noFaults]

/-- C1. Reserve is all-or-nothing: when some item of the request names a product that is absent,
or a product whose quantity, less what the earlier items of the request took, is below the
requested quantity, the response is a failure and the committed table is the table before the
call. -/
theorem reserve_all_or_nothing (decode : Json → Except String Product) (f : Faults)
    (body : Json) (db : Store) (products : List Product)
    (hbind : ShouldBindJSON decode body = .ok products)
    (hbad : ∃ pre p post, products = pre ++ p :: post ∧
      (db p.ID = none ∨ ∃ q0, db p.ID = some q0 ∧ q0 - requestedFor p.ID pre < p.Quantity)) :
    (reserveInventory decode f body db).1.status ≠ 200 ∧
      (reserveInventory decode f body db).2 = db := by
  have hfail : (reserveInventory decode f body db).1.status ≠ 200 := by
    intro h200
    obtain ⟨products1, tx, hbind1, hloop, _⟩ := reserveInventory_ok h200
    rw [hbind] at hbind1
    cases hbind1
    obtain ⟨pre, p, post, hsplit, hcase⟩ := hbad
    obtain ⟨q0, hq0, hle⟩ := reserveLoop_ok_items hloop pre p post hsplit
    rcases hcase with hnone | ⟨q1, hq1, hlt⟩
    · rw [hnone] at hq0
      cases hq0
    · rw [hq1] at hq0
      cases hq0
      omega
  exact ⟨hfail, reserveInventory_failed_store decode f body db hfail⟩

theorem reserve_all_or_nothing_witness :
    (reserveInventory decodeItem noFaults (.arr [itemJson "p1" 2, itemJson "p2" 1])
        (singleRow "p1" 5)).1.status ≠ 200 ∧
      (reserveInventory decodeItem noFaults (.arr [itemJson "p1" 2, itemJson "p2" 1])
        (singleRow "p1" 5)).2 = singleRow "p1" 5 :=
  reserve_all_or_nothing decodeItem noFaults (.arr [itemJson "p1" 2, itemJson "p2" 1])
    (singleRow "p1" 5) [⟨"p1", 2, .finite 0⟩, ⟨"p2", 1, .finite 0⟩] (by rfl)
    ⟨[⟨"p1", 2, .finite 0⟩], ⟨"p2", 1, .finite 0⟩, [], rfl, Or.inl (by decide)⟩

/-- C2. No oversell: from a table whose quantities are all non-negative, after every request of a
sequence of Reserve requests executed one after another all quantities are non-negative, and a
request of the sequence is answered 200 only if every item's requested quantity was at most the
quantity the loop read for it. -/
theorem no_oversell (decode : Json → Except String Product) (db : Store) (hnn : NonNeg db)
    (reqs : List (Faults × Json)) :
    (∀ n, NonNeg (runReserves decode (reqs.take n) db)) ∧
      ∀ n f body, reqs[n]? = some (f, body) →
        (reserveInventory decode f body (runReserves decode (reqs.take n) db)).1.status = 200 →
        ∃ products, ShouldBindJSON decode body = .ok products ∧
          ∀ pre p post, products = pre ++ p :: post →
            ∃ tx cur, reserveLoop f 0 pre (runReserves decode (reqs.take n) db) = .ok tx ∧
              tx.queryRow (f.query pre.length) p.ID = some cur ∧ p.Quantity ≤ cur := by
  refine ⟨fun n => runReserves_nonNeg decode (reqs.take n) hnn, ?_⟩
  intro n f body _ h200
  obtain ⟨products, tx1, hbind, hloop, _⟩ := reserveInventory_ok h200
  refine ⟨products, hbind, ?_⟩
  intro pre p post hsplit
  rw [hsplit] at hloop
  obtain ⟨tx0, cur, h0, hq, hle⟩ := reserveLoop_reads p post hloop
  exact ⟨tx0, cur, h0, by simpa using hq, hle⟩

theorem singleRow_nonNeg (pid : String) (q : Int) (hq : 0 ≤ q) : NonNeg (singleRow pid q) := by
  intro k v hk
  unfold singleRow at hk
  by_cases h : k = pid
  · simp only [h, if_true, Option.some.injEq] at hk
    omega
  · simp [h] at hk

theorem no_oversell_witness :
    (∀ n, NonNeg (runReserves decodeItem
      ([(noFaults, .arr [itemJson "p1" 3]), (noFaults, .arr [itemJson "p1" 3])].take n)
      (singleRow "p1" 5))) ∧
    (runReserves decodeItem
      [(noFaults, .arr [itemJson "p1" 3]), (noFaults, .arr [itemJson "p1" 3])]
      (singleRow "p1" 5)) "p1" = some 2 :=
  ⟨(no_oversell decodeItem (singleRow "p1" 5) (singleRow_nonNeg "p1" 5 (by decide))
      [(noFaults, .arr [itemJson "p1" 3]), (noFaults, .arr [itemJson "p1" 3])]).1, by decide⟩

/-- C6. Reserve answers 200 only if every line item was satisfied, and then decrements exactly
what was requested: every item names an existing product whose quantity, less what the earlier
items of the request took, covers the request; every row ends at its old quantity minus the sum
requested for it; a product that no item names is unchanged. -/
theorem reserve_success_exact (decode : Json → Except String Product) (f : Faults)
    (body : Json) (db : Store)
    (h200 : (reserveInventory decode f body db).1.status = 200) :
    ∃ products, ShouldBindJSON decode body = .ok products ∧
      (∀ pre p post, products = pre ++ p :: post →
        ∃ q0, db p.ID = some q0 ∧ p.Quantity ≤ q0 - requestedFor p.ID pre) ∧
      (∀ k, (reserveInventory decode f body db).2 k =
        (db k).map (fun q => q - requestedFor k products)) ∧
      (∀ k, (∀ p ∈ products, p.ID ≠ k) → (reserveInventory decode f body db).2 k = db k) := by
  obtain ⟨products, tx, hbind, hloop, hstore⟩ := reserveInventory_ok h200
  have hstate := reserveLoop_ok_state hloop
  refine ⟨products, hbind, reserveLoop_ok_items hloop, ?_, ?_⟩
  · intro k
    rw [hstore]
    exact hstate k
  · intro k hk
    rw [hstore, hstate k, requestedFor_of_not_mem k products hk]
    cases db k <;> simp

theorem reserve_success_exact_witness :
    ∃ products, ShouldBindJSON decodeItem (.arr [itemJson "p1" 2, itemJson "p1" 1]) =
        .ok products ∧
      (∀ pre p post, products = pre ++ p :: post →
        ∃ q0, singleRow "p1" 5 p.ID = some q0 ∧ p.Quantity ≤ q0 - requestedFor p.ID pre) ∧
      (∀ k, (reserveInventory decodeItem noFaults (.arr [itemJson "p1" 2, itemJson "p1" 1])
          (singleRow "p1" 5)).2 k =
        (singleRow "p1" 5 k).map (fun q => q - requestedFor k products)) ∧
      (∀ k, (∀ p ∈ products, p.ID ≠ k) →
        (reserveInventory decodeItem noFaults (.arr [itemJson "p1" 2, itemJson "p1" 1])
          (singleRow "p1" 5)).2 k = singleRow "p1" 5 k) :=
  reserve_success_exact decodeItem noFaults (.arr [itemJson "p1" 2, itemJson "p1" 1])
    (singleRow "p1" 5) (by decide)


/-- C8, as stated, fails: on the table `a = 1` the request `[a: 5, zzz: 1]` references the absent
product `zzz`, and the response is 400 "Insufficient inventory", not 404. -/
theorem reserve_absent_reported_insufficient :
    ShouldBindJSON decodeItem (.arr [itemJson "a" 5, itemJson "zzz" 1]) =
        .ok [⟨"a", 5, .finite 0⟩, ⟨"zzz", 1, .finite 0⟩] ∧
      singleRow "a" 1 "zzz" = none ∧
      (reserveInventory decodeItem noFaults (.arr [itemJson "a" 5, itemJson "zzz" 1])
        (singleRow "a" 1)).1 = ⟨400, .error "Insufficient inventory"⟩ :=
  ⟨by rfl, by decide, by decide⟩

/-- C8, amended. With a driver that does not fail, Reserve reports the first item, in request
order, that fails: 404 "Product not found" when the items before an absent product are all
satisfied; 400 "Insufficient inventory" when every referenced product is present and some item
is not satisfied; and 200, so neither signal, when every item is satisfied. -/
theorem reserve_signals (decode : Json → Except String Product) (body : Json) (db : Store)
    (products : List Product) (hbind : ShouldBindJSON decode body = .ok products) :
    (∀ pre p post, products = pre ++ p :: post → AllSatisfied db pre → db p.ID = none →
      (reserveInventory decode noFaults body db).1 = ⟨404, .error "Product not found"⟩) ∧
    ((∀ p ∈ products, db p.ID ≠ none) → ¬ AllSatisfied db products →
      (reserveInventory decode noFaults body db).1 = ⟨400, .error "Insufficient inventory"⟩) ∧
    (AllSatisfied db products → (reserveInventory decode noFaults body db).1.status = 200) := by
  rw [reserveInventory_noFaults db hbind]
  refine ⟨?_, ?_, ?_⟩
  · intro pre p post hsplit hpre hnone
    obtain ⟨tx0, h0⟩ := reserveLoop_noFaults_ok (i := 0) hpre
    have hp : tx0 p.ID = none := by
      rw [reserveLoop_ok_state h0 p.ID, hnone]
      rfl
    have hloop : reserveLoop noFaults 0 products db = .error ⟨404, .error "Product not found"⟩ := by
      rw [hsplit, reserveLoop_append (p :: post) h0]
      unfold reserveLoop
      simp [Store.queryRow, noFaults, hp]
    rw [hloop]
  · intro hpresent hnot
    rcases reserveLoop_noFaults_present (i := 0) hpresent with ⟨tx1, hok⟩ | herr
    · exact absurd (reserveLoop_ok_items hok) hnot
    · rw [herr]
  · intro hall
    obtain ⟨tx1, hok⟩ := reserveLoop_noFaults_ok (i := 0) hall
    rw [hok]

theorem reserve_signals_witness :
    (reserveInventory decodeItem noFaults (.arr [itemJson "a" 1, itemJson "zzz" 1])
      (singleRow "a" 1)).1 = ⟨404, .error "Product not found"⟩ := by
  have h := (reserve_signals decodeItem (.arr [itemJson "a" 1, itemJson "zzz" 1])
    (singleRow "a" 1) [⟨"a", 1, .finite 0⟩, ⟨"zzz", 1, .finite 0⟩] (by rfl)).1
  refine h [⟨"a", 1, .finite 0⟩] ⟨"zzz", 1, .finite 0⟩ [] rfl ?_ (by decide)
  intro pre p post hsplit
  cases pre with
  | nil =>
    simp only [List.nil_append, List.cons.injEq] at hsplit
    obtain ⟨rfl, _⟩ := hsplit
    exact ⟨1, by decide, by decide⟩
  | cons b pre1 =>
    simp at hsplit

/-- The rollback loop only fails with a status other than 200. -/
theorem rollbackLoop_error_status {f : Faults} {ps : List Product} :
    ∀ {i : Nat} {tx : Store} {r : Response}, rollbackLoop f i ps tx = .error r → r.status ≠ 200 := by
  induction ps with
  | nil =>
    intro i tx r h
    unfold rollbackLoop at h
    cases h
  | cons a rest ih =>
    intro i tx r h
    unfold rollbackLoop at h
    by_cases hex : f.exec i = true
    · simp only [hex, if_true] at h
      cases h
      decide
    · simp only [hex, if_false] at h
      exact ih h

/-- After a successful rollback loop every row holds its old quantity plus what the items name. -/
theorem rollbackLoop_ok_state {f : Faults} {ps : List Product} :
    ∀ {i : Nat} {tx tx1 : Store}, rollbackLoop f i ps tx = .ok tx1 →
      ∀ k, tx1 k = (tx k).map (fun q => q + requestedFor k ps) := by
  induction ps with
  | nil =>
    intro i tx tx1 h k
    unfold rollbackLoop at h
    cases h
    simp [requestedFor_nil]
  | cons a rest ih =>
    intro i tx tx1 h k
    unfold rollbackLoop at h
    by_cases hex : f.exec i = true
    · simp [hex] at h
    · simp only [hex, if_false] at h
      rw [ih h k, requestedFor_cons]
      unfold Store.update
      by_cases hk : k = a.ID
      · subst hk
        cases tx a.ID <;> simp [add_assoc]
      · have hk2 : ¬ a.ID = k := fun e => hk e.symm
        simp [hk, hk2]

/-- Without driver errors the rollback loop succeeds. -/
theorem rollbackLoop_noFaults_ok (ps : List Product) :
    ∀ (i : Nat) (tx : Store), ∃ tx1, rollbackLoop noFaults i ps tx = .ok tx1 := by
  induction ps with
  | nil =>
    intro i tx
    exact ⟨tx, by unfold rollbackLoop; rfl⟩
  | cons a rest ih =>
    intro i tx
    obtain ⟨tx1, h⟩ := ih (i + 1) (tx.update a.ID (fun q => q + a.Quantity))
    refine ⟨tx1, ?_⟩
    unfold rollbackLoop
    simpa [noFaults] using h

/-- A rollback answered 200 committed the table of a successful loop over the bound items. -/
theorem rollbackReservation_ok {decode : Json → Except String Product} {f : Faults}
    {body : Json} {db : Store} (h : (rollbackReservation decode f body db).1.status = 200) :
    ∃ products tx, ShouldBindJSON decode body = .ok products ∧
      rollbackLoop f 0 products db = .ok tx ∧ (rollbackReservation decode f body db).2 = tx := by
  unfold rollbackReservation at h ⊢
  cases hb : ShouldBindJSON decode body with
  | error e => simp [hb] at h
  | ok products =>
    simp only [hb] at h ⊢
    by_cases hbeg : f.begin = true
    · simp [hbeg] at h
    · simp only [hbeg, if_false] at h ⊢
      cases hl : rollbackLoop f 0 products db with
      | error r =>
        simp only [hl] at h
        exact absurd h (rollbackLoop_error_status hl)
      | ok tx =>
        simp only [hl] at h ⊢
        by_cases hc : f.commit = true
        · simp [hc] at h
        · exact ⟨products, tx, rfl, hl, by simp [hc]⟩

/-- Without driver errors a rollback of bound items is answered 200 and adds, for every row, the
quantities of the items that name it. -/
theorem rollbackReservation_noFaults {decode : Json → Except String Product} {body : Json}
    {products : List Product} (db : Store) (hbind : ShouldBindJSON decode body = .ok products) :
    (rollbackReservation decode noFaults body db).1 =
        ⟨200, .message "Inventory rollback successful"⟩ ∧
      ∀ k, (rollbackReservation decode noFaults body db).2 k =
        (db k).map (fun q => q + requestedFor k products) := by
  obtain ⟨tx, htx⟩ := rollbackLoop_noFaults_ok products 0 db
  have hstate := rollbackLoop_ok_state htx
  have heq : rollbackReservation decode noFaults body db =
      (⟨200, .message "Inventory rollback successful"⟩, tx) := by
    unfold rollbackReservation
    simp only [hbind, htx]
    simp [noFaults]
  rw [heq]
  exact ⟨rfl, hstate⟩


/-- C7, as stated, fails: on the table `a = 10` the items `[a: 5, a: -5]` hold an item with a
non-zero quantity that names an existing product, and the table after two calls of Release is
the table after one call. -/
theorem release_twice_same_table :
    ShouldBindJSON decodeItem (.arr [itemJson "a" 5, itemJson "a" (-5)]) =
        .ok [⟨"a", 5, .finite 0⟩, ⟨"a", -5, .finite 0⟩] ∧
      (∃ p ∈ [(⟨"a", 5, .finite 0⟩ : Product), ⟨"a", -5, .finite 0⟩],
        p.Quantity ≠ 0 ∧ singleRow "a" 10 p.ID ≠ none) ∧
      (rollbackReservation decodeItem noFaults (.arr [itemJson "a" 5, itemJson "a" (-5)])
        (rollbackReservation decodeItem noFaults (.arr [itemJson "a" 5, itemJson "a" (-5)])
          (singleRow "a" 10)).2).2 =
      (rollbackReservation decodeItem noFaults (.arr [itemJson "a" 5, itemJson "a" (-5)])
        (singleRow "a" 10)).2 := by
  have hbind : ShouldBindJSON decodeItem (.arr [itemJson "a" 5, itemJson "a" (-5)]) =
      .ok [⟨"a", 5, .finite 0⟩, ⟨"a", -5, .finite 0⟩] := by rfl
  refine ⟨hbind, ⟨⟨"a", 5, .finite 0⟩, by simp, by decide, by decide⟩, ?_⟩
  funext k
  have hzero : requestedFor k [⟨"a", 5, .finite 0⟩, ⟨"a", -5, .finite 0⟩] = 0 := by
    rw [requestedFor_cons, requestedFor_cons, requestedFor_nil]
    by_cases hk : "a" = k <;> simp [hk]
  rw [(rollbackReservation_noFaults _ hbind).2 k, hzero]
  cases (rollbackReservation decodeItem noFaults (.arr [itemJson "a" 5, itemJson "a" (-5)])
    (singleRow "a" 10)).2 k <;> simp

/-- C7, amended. With a driver that does not fail, Release of bound items is answered 200 on every
table, without any check of an earlier reservation, and adds to every row the quantities of the
items that name it; a second call adds them once more; the table after two calls differs from
the table after one call whenever the quantities of the items naming some existing product sum
to a non-zero value. -/
theorem release_double_credit (decode : Json → Except String Product) (body : Json) (db : Store)
    (items : List Product) (hbind : ShouldBindJSON decode body = .ok items) :
    (rollbackReservation decode noFaults body db).1.status = 200 ∧
    (rollbackReservation decode noFaults body
      (rollbackReservation decode noFaults body db).2).1.status = 200 ∧
    (∀ k, (rollbackReservation decode noFaults body db).2 k =
      (db k).map (fun q => q + requestedFor k items)) ∧
    (∀ k, (rollbackReservation decode noFaults body
        (rollbackReservation decode noFaults body db).2).2 k =
      ((rollbackReservation decode noFaults body db).2 k).map
        (fun q => q + requestedFor k items)) ∧
    ((∃ k, db k ≠ none ∧ requestedFor k items ≠ 0) →
      (rollbackReservation decode noFaults body
        (rollbackReservation decode noFaults body db).2).2 ≠
      (rollbackReservation decode noFaults body db).2) := by
  have h1 := rollbackReservation_noFaults db hbind
  have h2 := rollbackReservation_noFaults (rollbackReservation decode noFaults body db).2 hbind
  refine ⟨by rw [h1.1], by rw [h2.1], h1.2, h2.2, ?_⟩
  rintro ⟨k, hk, hsum⟩ heq
  have hk2 := h2.2 k
  rw [heq, h1.2 k] at hk2
  cases hdb : db k with
  | none => exact hk hdb
  | some q =>
    rw [hdb] at hk2
    simp only [Option.map_some', Option.some.injEq] at hk2
    omega

theorem release_double_credit_witness :
    (rollbackReservation decodeItem noFaults (.arr [itemJson "p1" 2])
      (rollbackReservation decodeItem noFaults (.arr [itemJson "p1" 2]) (singleRow "p1" 5)).2).2
        "p1" = some 9 ∧
    (rollbackReservation decodeItem noFaults (.arr [itemJson "p1" 2])
      (rollbackReservation decodeItem noFaults (.arr [itemJson "p1" 2]) (singleRow "p1" 5)).2).2 ≠
    (rollbackReservation decodeItem noFaults (.arr [itemJson "p1" 2]) (singleRow "p1" 5)).2 :=
  ⟨by decide,
    (release_double_credit decodeItem (.arr [itemJson "p1" 2]) (singleRow "p1" 5)
      [⟨"p1", 2, .finite 0⟩] (by rfl)).2.2.2.2 ⟨"p1", by decide, by decide⟩⟩

/-- C10. Compensation undoes the reservation: when Reserve is answered 200 on the items of a body,
Release with the same body on the resulting table is answered 200 (driver without errors) and
commits the table from before the Reserve; whatever the driver does, a Release answered 200
commits that table. -/
theorem release_undoes_reserve (decode : Json → Except String Product) (f : Faults)
    (body : Json) (db : Store)
    (h200 : (reserveInventory decode f body db).1.status = 200) :
    (rollbackReservation decode noFaults body (reserveInventory decode f body db).2).1.status
        = 200 ∧
      (rollbackReservation decode noFaults body (reserveInventory decode f body db).2).2 = db ∧
      ∀ g, (rollbackReservation decode g body (reserveInventory decode f body db).2).1.status
          = 200 →
        (rollbackReservation decode g body (reserveInventory decode f body db).2).2 = db := by
  obtain ⟨products, tx, hbind, hloop, hstore⟩ := reserveInventory_ok h200
  have hres := reserveLoop_ok_state hloop
  have hback : ∀ g, (rollbackReservation decode g body tx).1.status = 200 →
      (rollbackReservation decode g body tx).2 = db := by
    intro g hg
    obtain ⟨products1, tx1, hbind1, hloop1, hstore1⟩ := rollbackReservation_ok hg
    rw [hbind] at hbind1
    cases hbind1
    rw [hstore1]
    funext k
    rw [rollbackLoop_ok_state hloop1 k, hres k]
    cases db k <;> simp
  rw [hstore]
  have h1 := rollbackReservation_noFaults tx hbind
  have hstat : (rollbackReservation decode noFaults body tx).1.status = 200 := by rw [h1.1]
  exact ⟨hstat, hback noFaults hstat, hback⟩

theorem release_undoes_reserve_witness :
    (rollbackReservation decodeItem noFaults (.arr [itemJson "p1" 2, itemJson "p1" 1])
      (reserveInventory decodeItem noFaults (.arr [itemJson "p1" 2, itemJson "p1" 1])
        (singleRow "p1" 5)).2).2 = singleRow "p1" 5 :=
  (release_undoes_reserve decodeItem noFaults (.arr [itemJson "p1" 2, itemJson "p1" 1])
    (singleRow "p1" 5) (by decide)).2.1


/-- The test of the coordinator passes exactly the responses with status 200. -/
theorem callFailed_eq_false_iff (r : Option Response) :
    callFailed r = false ↔ r.map (fun x => x.status) = some 200 := by
  cases r with
  | none => simp [callFailed]
  | some resp => simp [callFailed]

/-- The events of one run of `startOrderSaga` and its `orders` table, by the answers of the
services: Reserve not answered 200; Reserve and Process answered 200; Reserve answered 200 and
Process not; Reserve answered 200 and an amount that `json.Marshal` does not encode. -/
theorem startOrderSaga_trace {W : Type} (env : Env W) (order : Order) (st : SagaState W) :
    ∃ evs, (startOrderSaga env order st).trace = st.trace ++ evs ∧
      (((env.post reserveURL (inventoryBody order) st.world).1.map (fun x => x.status)
            ≠ some 200 ∧
          evs = [.post reserveURL (inventoryBody order)
              ((env.post reserveURL (inventoryBody order) st.world).1.map (fun x => x.status)),
            .updateOrderStatus order.ID "failed"] ∧
          (startOrderSaga env order st).orders =
            (updateOrderStatus env order.ID "failed" st).orders) ∨
       ((env.post reserveURL (inventoryBody order) st.world).1.map (fun x => x.status)
            = some 200 ∧
          ∃ pay, jsonMarshalPaymentRequest ⟨order.ID, order.Amount, order.UserID⟩ = .ok pay ∧
          (env.post paymentURL pay (env.post reserveURL (inventoryBody order) st.world).2).1.map
            (fun x => x.status) = some 200 ∧
          evs = [.post reserveURL (inventoryBody order) (some 200),
            .post paymentURL pay (some 200), .updateOrderStatus order.ID "completed"] ∧
          (startOrderSaga env order st).orders =
            (updateOrderStatus env order.ID "completed" st).orders) ∨
       ((env.post reserveURL (inventoryBody order) st.world).1.map (fun x => x.status)
            = some 200 ∧
          ∃ pay r1, jsonMarshalPaymentRequest ⟨order.ID, order.Amount, order.UserID⟩ = .ok pay ∧
          (env.post paymentURL pay (env.post reserveURL (inventoryBody order) st.world).2).1.map
            (fun x => x.status) ≠ some 200 ∧
          evs = [.post reserveURL (inventoryBody order) (some 200),
            .post paymentURL pay
              ((env.post paymentURL pay
                (env.post reserveURL (inventoryBody order) st.world).2).1.map
                  (fun x => x.status)),
            .post rollbackURL (inventoryBody order) r1, .updateOrderStatus order.ID "failed"] ∧
          (startOrderSaga env order st).orders =
            (updateOrderStatus env order.ID "failed" st).orders) ∨
       ((env.post reserveURL (inventoryBody order) st.world).1.map (fun x => x.status)
            = some 200 ∧
          ∃ r1, order.Amount = .nonFinite ∧
          evs = [.post reserveURL (inventoryBody order) (some 200),
            .post rollbackURL (inventoryBody order) r1,
            .updateOrderStatus order.ID "failed"] ∧
          (startOrderSaga env order st).orders =
            (updateOrderStatus env order.ID "failed" st).orders)) := by
  have hbody : jsonMarshalInventoryRequest
      ⟨order.ID, order.Products.map (fun product => ⟨product.ID, product.Quantity⟩)⟩ =
      .ok (inventoryBody order) := by
    simp [jsonMarshalInventoryRequest, inventoryBody, List.map_map, Function.comp_def]
  unfold startOrderSaga
  simp only [hbody]
  rcases hp1 : env.post reserveURL (inventoryBody order) st.world with ⟨resp1, w1⟩
  have hpost1 : httpPost env reserveURL (inventoryBody order) st =
      (resp1, { st with world := w1, trace := st.trace ++
        [.post reserveURL (inventoryBody order) (resp1.map (fun x => x.status))] }) := by
    simp [httpPost, hp1]
  rw [hpost1]
  cases h1 : callFailed resp1 with
  | true =>
    refine ⟨[.post reserveURL (inventoryBody order) (resp1.map (fun x => x.status)),
      .updateOrderStatus order.ID "failed"], ?_, Or.inl ⟨?_, rfl, ?_⟩⟩
    · simp [updateOrderStatus]
    · intro h
      rw [(callFailed_eq_false_iff _).mpr h] at h1
      cases h1
    · simp [updateOrderStatus]
  | false =>
    have hr1 : resp1.map (fun x => x.status) = some 200 := (callFailed_eq_false_iff _).mp h1
    simp only [Bool.false_eq_true, if_false]
    cases hamt : order.Amount with
    | nonFinite =>
      rcases hp3 : env.post rollbackURL (inventoryBody order) w1 with ⟨resp3, w3⟩
      refine ⟨[.post reserveURL (inventoryBody order) (some 200),
        .post rollbackURL (inventoryBody order) (resp3.map (fun x => x.status)),
        .updateOrderStatus order.ID "failed"], ?_,
        Or.inr (Or.inr (Or.inr ⟨hr1, resp3.map (fun x => x.status), rfl, rfl, ?_⟩))⟩
      · simp [jsonMarshalPaymentRequest, hamt, updateOrderStatus, rollbackInventory, httpPost,
          hbody, hr1, hp3]
      · simp [jsonMarshalPaymentRequest, hamt, updateOrderStatus, rollbackInventory, httpPost,
          hbody]
    | finite q =>
      simp only [jsonMarshalPaymentRequest, hamt]
      rcases hp2 : env.post paymentURL
        (.obj [("order_id", .str order.ID), ("amount", .num q), ("user_id", .str order.UserID)])
        w1 with ⟨resp2, w2⟩
      cases h2 : callFailed resp2 with
      | true =>
        rcases hp3 : env.post rollbackURL (inventoryBody order) w2 with ⟨resp3, w3⟩
        have hr2 : resp2.map (fun x => x.status) ≠ some 200 := by
          intro h
          rw [(callFailed_eq_false_iff _).mpr h] at h2
          cases h2
        refine ⟨[.post reserveURL (inventoryBody order) (some 200),
          .post paymentURL (.obj [("order_id", .str order.ID), ("amount", .num q),
            ("user_id", .str order.UserID)]) (resp2.map (fun x => x.status)),
          .post rollbackURL (inventoryBody order) (resp3.map (fun x => x.status)),
          .updateOrderStatus order.ID "failed"], ?_,
          Or.inr (Or.inr (Or.inl ⟨hr1, .obj [("order_id", .str order.ID), ("amount", .num q),
            ("user_id", .str order.UserID)], resp3.map (fun x => x.status), rfl, ?_, ?_, ?_⟩))⟩
        · simp [updateOrderStatus, rollbackInventory, httpPost, hbody, hr1, hp2, hp3, h2]
        · simpa [hp2] using hr2
        · simp [hp2]
        · simp [updateOrderStatus, rollbackInventory, httpPost, hbody, hp2, h2]
      | false =>
        have hr2 : resp2.map (fun x => x.status) = some 200 := (callFailed_eq_false_iff _).mp h2
        refine ⟨[.post reserveURL (inventoryBody order) (some 200),
          .post paymentURL (.obj [("order_id", .str order.ID), ("amount", .num q),
            ("user_id", .str order.UserID)]) (some 200),
          .updateOrderStatus order.ID "completed"], ?_,
          Or.inr (Or.inl ⟨hr1, .obj [("order_id", .str order.ID), ("amount", .num q),
            ("user_id", .str order.UserID)], rfl, ?_, rfl, ?_⟩)⟩
        · simp [updateOrderStatus, httpPost, hr1, hr2, hp2, h2]
        · simpa [hp2] using hr2
        · simp [updateOrderStatus, httpPost, hp2, h2]

/-- C3. One run of `startOrderSaga` writes the status of its order exactly once; the value is
`completed` exactly when the services answer 200 to the Reserve call and to the Process call,
and `failed` otherwise; it is never `pending`. The `orders` table after the run is the table
before it with that one statement applied, or unchanged when the statement returns an error. -/
theorem saga_writes_status_once {W : Type} (env : Env W) (order : Order) (st : SagaState W) :
    ∃ evs v, (startOrderSaga env order st).trace = st.trace ++ evs ∧
      statusWrites evs = [(order.ID, v)] ∧
      v ≠ "pending" ∧
      (v = "completed" ∨ v = "failed") ∧
      (v = "completed" ↔
        (env.post reserveURL (inventoryBody order) st.world).1.map (fun x => x.status)
            = some 200 ∧
          ∃ pay, jsonMarshalPaymentRequest ⟨order.ID, order.Amount, order.UserID⟩ = .ok pay ∧
            (env.post paymentURL pay
              (env.post reserveURL (inventoryBody order) st.world).2).1.map
                (fun x => x.status) = some 200) ∧
      (startOrderSaga env order st).orders =
        if env.execFails then st.orders
        else fun k => if k = order.ID then (st.orders k).map (fun r => { r with status := v })
          else st.orders k := by
  obtain ⟨evs, htrace, hcase⟩ := startOrderSaga_trace env order st
  rcases hcase with ⟨hr, rfl, ho⟩ | ⟨hr, pay, hpay, hr2, rfl, ho⟩ |
    ⟨hr, pay, r1, hpay, hr2, rfl, ho⟩ | ⟨hr, r1, hamt, rfl, ho⟩
  · refine ⟨_, "failed", htrace, rfl, by decide, Or.inr rfl, ?_, ho⟩
    constructor
    · intro h
      exact absurd h (by decide)
    · rintro ⟨h1, _⟩
      exact absurd h1 hr
  · refine ⟨_, "completed", htrace, rfl, by decide, Or.inl rfl, ?_, ho⟩
    constructor
    · intro _
      exact ⟨hr, pay, hpay, hr2⟩
    · intro _
      rfl
  · refine ⟨_, "failed", htrace, rfl, by decide, Or.inr rfl, ?_, ho⟩
    constructor
    · intro h
      exact absurd h (by decide)
    · rintro ⟨_, pay1, hpay1, h2⟩
      rw [hpay] at hpay1
      cases hpay1
      exact absurd h2 hr2
  · refine ⟨_, "failed", htrace, rfl, by decide, Or.inr rfl, ?_, ho⟩
    constructor
    · intro h
      exact absurd h (by decide)
    · rintro ⟨_, pay1, hpay1, _⟩
      simp [jsonMarshalPaymentRequest, hamt] at hpay1

/-- C4, as stated, fails: for an order whose amount `json.Marshal` does not encode, with
services that answer 200 to every call, Reserve succeeds, the run ends `failed`, and the service
calls are Reserve and Release, without a Process call: none of the three sequences. -/
theorem saga_calls_without_process :
    (everyCallOK.post reserveURL (inventoryBody nonFiniteOrder) ()).1.map (fun x => x.status)
        = some 200 ∧
      serviceCalls (startOrderSaga everyCallOK nonFiniteOrder ⟨(), fun _ => none, []⟩).trace =
        [(reserveURL, inventoryBody nonFiniteOrder),
          (rollbackURL, inventoryBody nonFiniteOrder)] ∧
      statusWrites (startOrderSaga everyCallOK nonFiniteOrder ⟨(), fun _ => none, []⟩).trace =
        [("o1", "failed")] :=
  ⟨by rfl, by rfl, by rfl⟩

/-- C4, amended. The service calls of one run of `startOrderSaga`, by the answers of the
services: only Reserve when Reserve is not answered 200; Reserve, then Process when both are
answered 200; Reserve, Process, then Release when Reserve is answered 200 and Process is not;
Reserve, then Release, without a Process call, when Reserve is answered 200 and the amount of
the order is one that `json.Marshal` does not encode. Reserve and Release carry the same body,
whose items are the line items of the order, in their order, as product and quantity. -/
theorem saga_call_sequence {W : Type} (env : Env W) (order : Order) (st : SagaState W) :
    ∃ evs, (startOrderSaga env order st).trace = st.trace ++ evs ∧
      inventoryBody order = .obj [("order_id", .str order.ID), ("products", .arr
        (order.Products.map (fun p =>
          .obj [("product_id", .str p.ID), ("quantity", .int p.Quantity)])))] ∧
      ((env.post reserveURL (inventoryBody order) st.world).1.map (fun x => x.status)
          ≠ some 200 →
        serviceCalls evs = [(reserveURL, inventoryBody order)]) ∧
      ((env.post reserveURL (inventoryBody order) st.world).1.map (fun x => x.status)
          = some 200 →
        (∀ pay, jsonMarshalPaymentRequest ⟨order.ID, order.Amount, order.UserID⟩ = .ok pay →
          ((env.post paymentURL pay
              (env.post reserveURL (inventoryBody order) st.world).2).1.map
                (fun x => x.status) = some 200 →
            serviceCalls evs = [(reserveURL, inventoryBody order), (paymentURL, pay)]) ∧
          ((env.post paymentURL pay
              (env.post reserveURL (inventoryBody order) st.world).2).1.map
                (fun x => x.status) ≠ some 200 →
            serviceCalls evs = [(reserveURL, inventoryBody order), (paymentURL, pay),
              (rollbackURL, inventoryBody order)])) ∧
        (order.Amount = .nonFinite →
          serviceCalls evs = [(reserveURL, inventoryBody order),
            (rollbackURL, inventoryBody order)])) := by
  obtain ⟨evs, htrace, hcase⟩ := startOrderSaga_trace env order st
  refine ⟨evs, htrace, rfl, ?_⟩
  rcases hcase with ⟨hr, rfl, _⟩ | ⟨hr, pay, hpay, hr2, rfl, _⟩ |
    ⟨hr, pay, r1, hpay, hr2, rfl, _⟩ | ⟨hr, r1, hamt, rfl, _⟩
  · exact ⟨fun _ => rfl, fun h => absurd h hr⟩
  · refine ⟨fun h => absurd hr h, fun _ => ⟨?_, ?_⟩⟩
    · intro pay1 hpay1
      rw [hpay] at hpay1
      cases hpay1
      exact ⟨fun _ => rfl, fun h => absurd hr2 h⟩
    · intro hamt
      simp [jsonMarshalPaymentRequest, hamt] at hpay
  · refine ⟨fun h => absurd hr h, fun _ => ⟨?_, ?_⟩⟩
    · intro pay1 hpay1
      rw [hpay] at hpay1
      cases hpay1
      exact ⟨fun h => absurd h hr2, fun _ => rfl⟩
    · intro hamt
      simp [jsonMarshalPaymentRequest, hamt] at hpay
  · refine ⟨fun h => absurd hr h, fun _ => ⟨?_, fun _ => rfl⟩⟩
    intro pay1 hpay1
    simp [jsonMarshalPaymentRequest, hamt] at hpay1

/-- C5. The body that `startOrderSaga` builds for Reserve is a JSON object, and `reserveInventory`
binds an array: for every order, every binding of the elements and every table the handler
answers 400 and leaves the table as it was. For the example order against `p1 = 5` the run
makes the Reserve call, gets 400, writes `failed`, and the inventory still holds `p1 = 5`. -/
theorem saga_reserve_body_rejected (decodeProduct : Json → Except String Product)
    (decodePayment : Json → Except String Payment) (newID : String) :
    (∀ (order : Order) (f : Faults) (db : Store),
      reserveInventory decodeProduct f (inventoryBody order) db =
        (⟨400, .error "json: cannot unmarshal into Go value of type []models.Product"⟩, db)) ∧
    (startOrderSaga ⟨deployedPost decodeProduct decodePayment newID, false⟩ exampleOrder
        ⟨⟨singleRow "p1" 5, noPayments⟩, ordersWith exampleOrder, []⟩).trace =
      [.post reserveURL (inventoryBody exampleOrder) (some 400),
        .updateOrderStatus "o1" "failed"] ∧
    (startOrderSaga ⟨deployedPost decodeProduct decodePayment newID, false⟩ exampleOrder
        ⟨⟨singleRow "p1" 5, noPayments⟩, ordersWith exampleOrder, []⟩).world.inventory "p1" =
      some 5 ∧
    (startOrderSaga ⟨deployedPost decodeProduct decodePayment newID, false⟩ exampleOrder
        ⟨⟨singleRow "p1" 5, noPayments⟩, ordersWith exampleOrder, []⟩).orders "o1" =
      some ⟨"u1", .finite 50, "failed"⟩ := by
  refine ⟨fun _ _ _ => rfl, ?_, ?_, ?_⟩ <;> rfl


/-- The table committed by `processPayment`: the old table, or the old table with one new row
under the fresh key, status `completed`. -/
theorem processPayment_store (decode : Json → Except String Payment) (newID : String)
    (f : Faults) (body : Json) (db : PaymentStore) :
    (processPayment decode newID f body db).2 = db ∨
      (db newID = none ∧ ∃ p, decode body = .ok p ∧
        (processPayment decode newID f body db).2 =
          fun k => if k = newID then some ⟨p.OrderID, p.Amount, "completed"⟩ else db k) := by
  unfold processPayment
  cases hb : decode body with
  | error e => exact Or.inl rfl
  | ok p =>
    simp only
    by_cases hbeg : f.begin = true
    · simp [hbeg]
    · simp only [hbeg, if_false]
      unfold PaymentStore.insert
      by_cases hins : (f.exec 0 || (db newID).isSome) = true
      · simp [hins]
      · simp only [hins, if_false]
        by_cases hex : f.exec 1 = true
        · simp [hex]
        · simp only [hex, if_false]
          by_cases hc : f.commit = true
          · simp [hc]
          · simp only [hc, if_false]
            right
            have hnone : db newID = none := by
              cases hdb : db newID with
              | none => rfl
              | some row => simp [hdb] at hins
            refine ⟨hnone, p, rfl, ?_⟩
            funext k
            unfold PaymentStore.updateStatus
            by_cases hk : k = newID <;> simp [hk]

/-- The table committed by `rollbackPayment`: the old table, or the old table in which the rows
of the order are `failed`. -/
theorem rollbackPayment_store (decode : Json → Except String Payment) (f : Faults)
    (body : Json) (db : PaymentStore) :
    (rollbackPayment decode f body db).2 = db ∨
      ∃ p, decode body = .ok p ∧ (rollbackPayment decode f body db).2 = db.failOrder p.OrderID := by
  unfold rollbackPayment
  cases hb : decode body with
  | error e => exact Or.inl rfl
  | ok p =>
    simp only
    by_cases hex : f.exec 0 = true
    · simp [hex]
    · exact Or.inr ⟨p, rfl, by simp [hex]⟩

/-- One operation on a row that exists: order and amount stay, the status stays or becomes
`failed`. -/
theorem PaymentOp.apply_existing (decode : Json → Except String Payment) (op : PaymentOp)
    (db : PaymentStore) (id : String) (row : PaymentRow) (h : db id = some row) :
    ∃ row1, op.apply decode db id = some row1 ∧ row1.order_id = row.order_id ∧
      row1.amount = row.amount ∧ (row1.status = row.status ∨ row1.status = "failed") := by
  cases op with
  | process newID f body =>
    simp only [PaymentOp.apply]
    rcases processPayment_store decode newID f body db with hs | ⟨hnone, p, _, hs⟩
    · rw [hs]
      exact ⟨row, h, rfl, rfl, Or.inl rfl⟩
    · have hk : id ≠ newID := by
        intro e
        rw [e, hnone] at h
        cases h
      simp only [hs, hk, if_false]
      exact ⟨row, h, rfl, rfl, Or.inl rfl⟩
  | rollback f body =>
    simp only [PaymentOp.apply]
    rcases rollbackPayment_store decode f body db with hs | ⟨p, _, hs⟩
    · rw [hs]
      exact ⟨row, h, rfl, rfl, Or.inl rfl⟩
    · simp only [hs, PaymentStore.failOrder, h, Option.map_some']
      by_cases ho : row.order_id = p.OrderID
      · exact ⟨{ row with status := "failed" }, by simp [ho], rfl, rfl, Or.inr rfl⟩
      · exact ⟨row, by simp [ho], rfl, rfl, Or.inl rfl⟩

/-- One operation on a key without a row: still no row, or a new row with status `completed`. -/
theorem PaymentOp.apply_absent (decode : Json → Except String Payment) (op : PaymentOp)
    (db : PaymentStore) (id : String) (h : db id = none) :
    op.apply decode db id = none ∨
      ∃ row1, op.apply decode db id = some row1 ∧ row1.status = "completed" := by
  cases op with
  | process newID f body =>
    simp only [PaymentOp.apply]
    rcases processPayment_store decode newID f body db with hs | ⟨_, p, _, hs⟩
    · rw [hs]
      exact Or.inl h
    · by_cases hk : id = newID
      · right
        exact ⟨⟨p.OrderID, p.Amount, "completed"⟩, by simp [hs, hk], rfl⟩
      · left
        simp [hs, hk, h]
  | rollback f body =>
    simp only [PaymentOp.apply]
    rcases rollbackPayment_store decode f body db with hs | ⟨p, _, hs⟩
    · rw [hs]
      exact Or.inl h
    · left
      simp [hs, PaymentStore.failOrder, h]

/-- A sequence of operations on a row that exists: order and amount stay, the status stays or
becomes `failed`. -/
theorem runPayments_existing (decode : Json → Except String Payment) (ops : List PaymentOp) :
    ∀ (db : PaymentStore) (id : String) (row : PaymentRow), db id = some row →
      ∃ row1, runPayments decode ops db id = some row1 ∧ row1.order_id = row.order_id ∧
        row1.amount = row.amount ∧ (row1.status = row.status ∨ row1.status = "failed") := by
  induction ops with
  | nil =>
    intro db id row h
    exact ⟨row, h, rfl, rfl, Or.inl rfl⟩
  | cons op rest ih =>
    intro db id row h
    obtain ⟨row1, h1, ho, ha, hs⟩ := PaymentOp.apply_existing decode op db id row h
    obtain ⟨row2, h2, ho2, ha2, hs2⟩ := ih (op.apply decode db) id row1 h1
    refine ⟨row2, ?_, ho2.trans ho, ha2.trans ha, ?_⟩
    · unfold runPayments at h2 ⊢
      rw [List.foldl_cons]
      exact h2
    · rcases hs2 with e2 | e2
      · rcases hs with e1 | e1
        · exact Or.inl (e2.trans e1)
        · exact Or.inr (e2.trans e1)
      · exact Or.inr e2

/-- A sequence of operations on a key without a row: still no row, or a row with status
`completed` or `failed`. -/
theorem runPayments_absent (decode : Json → Except String Payment) (ops : List PaymentOp) :
    ∀ (db : PaymentStore) (id : String), db id = none →
      runPayments decode ops db id = none ∨
        ∃ row1, runPayments decode ops db id = some row1 ∧
          (row1.status = "completed" ∨ row1.status = "failed") := by
  induction ops with
  | nil =>
    intro db id h
    exact Or.inl h
  | cons op rest ih =>
    intro db id h
    have hfold : runPayments decode (op :: rest) db = runPayments decode rest (op.apply decode db) := by
      unfold runPayments
      rw [List.foldl_cons]
    rw [hfold]
    rcases PaymentOp.apply_absent decode op db id h with h1 | ⟨row1, h1, hs1⟩
    · exact ih _ id h1
    · obtain ⟨row2, h2, _, _, hs2⟩ := runPayments_existing decode rest _ id row1 h1
      right
      refine ⟨row2, h2, ?_⟩
      rcases hs2 with e | e
      · exact Or.inl (e.trans hs1)
      · exact Or.inr e

/-- Process changes no existing record. -/
theorem processPayment_existing (decode : Json → Except String Payment) (newID : String)
    (f : Faults) (body : Json) (db : PaymentStore) (id : String) (row : PaymentRow)
    (h : db id = some row) : (processPayment decode newID f body db).2 id = some row := by
  rcases processPayment_store decode newID f body db with hs | ⟨hnone, p, _, hs⟩
  · rw [hs]
    exact h
  · have hk : id ≠ newID := by
      intro e
      rw [e, hnone] at h
      cases h
    simp only [hs, hk, if_false]
    exact h

/-- Compensate leaves an existing record as it is, or it is a Compensate for the order of the
record and sets its status to `failed`. -/
theorem rollbackPayment_existing (decode : Json → Except String Payment) (f : Faults)
    (body : Json) (db : PaymentStore) (id : String) (row : PaymentRow) (h : db id = some row) :
    (rollbackPayment decode f body db).2 id = some row ∨
      ∃ p, decode body = .ok p ∧ p.OrderID = row.order_id ∧
        (rollbackPayment decode f body db).2 id = some { row with status := "failed" } := by
  rcases rollbackPayment_store decode f body db with hs | ⟨p, hp, hs⟩
  · rw [hs]
    exact Or.inl h
  · by_cases ho : row.order_id = p.OrderID
    · right
      exact ⟨p, hp, ho.symm, by simp [hs, PaymentStore.failOrder, h, ho]⟩
    · left
      simp [hs, PaymentStore.failOrder, h, ho]

/-- A sequence of operations without a Compensate for the order of a record leaves the record as
it is. -/
theorem runPayments_untouched (decode : Json → Except String Payment) (id : String)
    (row : PaymentRow) (ops : List PaymentOp) :
    ∀ (db : PaymentStore), db id = some row →
      (∀ f body p, PaymentOp.rollback f body ∈ ops → decode body = .ok p →
        p.OrderID ≠ row.order_id) →
      runPayments decode ops db id = some row := by
  induction ops with
  | nil =>
    intro db h _
    exact h
  | cons op rest ih =>
    intro db h hno
    have hfold : runPayments decode (op :: rest) db =
        runPayments decode rest (op.apply decode db) := by
      unfold runPayments
      rw [List.foldl_cons]
    rw [hfold]
    refine ih _ ?_ (fun f body p hmem => hno f body p (List.mem_cons_of_mem _ hmem))
    cases op with
    | process newID f body =>
      simp only [PaymentOp.apply]
      exact processPayment_existing decode newID f body db id row h
    | rollback f body =>
      simp only [PaymentOp.apply]
      rcases rollbackPayment_existing decode f body db id row h with h1 | ⟨p, hp, ho, _⟩
      · exact h1
      · exact absurd ho (hno f body p (List.mem_cons_self _ _) hp)

/-- C9, as stated, fails: Process commits the record `pay1` of order `o1` as `completed`, and a
later Compensate for `o1` changes it to `failed`. -/
theorem compensate_changes_completed :
    (processPayment decodePaymentBody "pay1" noFaults
        (.obj [("order_id", .str "o1"), ("amount", .num 50), ("user_id", .str "u1")])
        noPayments).2 "pay1" = some ⟨"o1", .finite 50, "completed"⟩ ∧
      (rollbackPayment decodePaymentBody noFaults (.obj [("order_id", .str "o1")])
        (processPayment decodePaymentBody "pay1" noFaults
          (.obj [("order_id", .str "o1"), ("amount", .num 50), ("user_id", .str "u1")])
          noPayments).2).2 "pay1" = some ⟨"o1", .finite 50, "failed"⟩ :=
  ⟨by rfl, by rfl⟩

/-- C9, amended. Over every sequence of Process and Compensate operations: a record created by
Process is committed as `completed`, never as `processing`; Process changes no existing record;
the only later mutation of a record is a Compensate for its order, which sets its status to
`failed`, a `completed` one included, and a sequence without such a Compensate leaves the
record as it is; a record keeps its order and amount, and once `failed` its status is never
changed again. -/
theorem payment_status_history (decode : Json → Except String Payment) (ops : List PaymentOp)
    (db : PaymentStore) (id : String) :
    (∀ row, db id = some row →
      ∃ row1, runPayments decode ops db id = some row1 ∧ row1.order_id = row.order_id ∧
        row1.amount = row.amount ∧ (row1.status = row.status ∨ row1.status = "failed")) ∧
    (db id = none →
      runPayments decode ops db id = none ∨
        ∃ row1, runPayments decode ops db id = some row1 ∧
          (row1.status = "completed" ∨ row1.status = "failed")) ∧
    (∀ newID f body, db id = none →
      (processPayment decode newID f body db).2 id = none ∨
        ∃ row1, (processPayment decode newID f body db).2 id = some row1 ∧
          row1.status = "completed") ∧
    (∀ f body p row, decode body = .ok p → f.exec 0 = false → db id = some row →
      row.order_id = p.OrderID →
      (rollbackPayment decode f body db).2 id = some { row with status := "failed" }) ∧
    (∀ newID f body row, db id = some row →
      (processPayment decode newID f body db).2 id = some row) ∧
    (∀ f body row, db id = some row →
      (rollbackPayment decode f body db).2 id = some row ∨
        ∃ p, decode body = .ok p ∧ p.OrderID = row.order_id ∧
          (rollbackPayment decode f body db).2 id = some { row with status := "failed" }) ∧
    (∀ row, db id = some row →
      (∀ f body p, PaymentOp.rollback f body ∈ ops → decode body = .ok p →
        p.OrderID ≠ row.order_id) →
      runPayments decode ops db id = some row) := by
  refine ⟨runPayments_existing decode ops db id, runPayments_absent decode ops db id, ?_, ?_,
    ?_, ?_, ?_⟩
  · intro newID f body h
    exact PaymentOp.apply_absent decode (.process newID f body) db id h
  · intro f body p row hb hex hrow ho
    unfold rollbackPayment
    simp [hb, hex, PaymentStore.failOrder, hrow, ho]
  · intro newID f body row h
    exact processPayment_existing decode newID f body db id row h
  · intro f body row h
    exact rollbackPayment_existing decode f body db id row h
  · intro row h hno
    exact runPayments_untouched decode id row ops db h hno

end Saga
